import Mathlib

/-
Verification of the mywm window manager core against its specification.

The Python sources are shallowly embedded: window handles are natural
numbers, geometries are integer rectangles, dictionaries are association
lists with replace-on-insert semantics, and every stateful manager is a
pure state-transition function.  Python integer division and modulo on a
positive divisor coincide with Lean's Int division and modulo (both are
Euclidean there), so `//` and `%` are translated directly.
-/

/-- An integer rectangle (x, y, width, height), the geometry unit used by
every layout and by window caches. -/
structure Rect where
  x : Int
  y : Int
  w : Int
  h : Int
deriving Repr, DecidableEq

/-- Python `abs` on integers. -/
def pyAbs (a : Int) : Int := if a < 0 then -a else a

theorem pyAbs_lt {a t : Int} : pyAbs a < t ↔ -t < a ∧ a < t := by
  simp only [pyAbs]; split <;> omega

theorem pyAbs_le {a t : Int} : pyAbs a ≤ t ↔ -t ≤ a ∧ a ≤ t := by
  simp only [pyAbs]; split <;> omega

namespace WindowRegistry

/-
Embedding of mywm1.0/managers/window.py (WindowManager.manage /
WindowManager.unmanage).  A managed window is identified by its X window
id; `managed` mirrors `self.managed` (list of wrappers, here their ids)
and `published` mirrors the argument of the last
`ewmh.update_client_list([m.window for m in self.managed])` call.
-/

structure State where
  managed : List Nat
  published : List Nat
deriving Repr, DecidableEq

/-- Initial state: no managed windows, nothing published yet. -/
def init : State := ⟨[], []⟩

/-- `WindowManager.manage`: an already-known handle is returned as-is
(idempotent, no republish); otherwise the wrapper is appended and the
client list republished from the managed list. -/
def manage (s : State) (wid : Nat) : State :=
  if wid ∈ s.managed then s
  else
    let m := s.managed ++ [wid]
    ⟨m, m⟩

/-- `WindowManager.unmanage`: an unknown wrapper is ignored; otherwise it
is removed from the managed list and the client list republished. -/
def unmanage (s : State) (wid : Nat) : State :=
  if wid ∈ s.managed then
    let m := s.managed.erase wid
    ⟨m, m⟩
  else s

inductive Op where
  | manage (wid : Nat)
  | unmanage (wid : Nat)
deriving Repr, DecidableEq

def applyOp (s : State) : Op → State
  | .manage wid => manage s wid
  | .unmanage wid => unmanage s wid

/-- Run a sequence of register/unregister operations from the initial
state. -/
def run (ops : List Op) : State := ops.foldl applyOp init

theorem consistent_applyOp {s : State} (h : s.managed = s.published) (op : Op) :
    (applyOp s op).managed = (applyOp s op).published := by
  cases op <;> simp only [applyOp, manage, unmanage] <;> split <;> simp [h]

end WindowRegistry

/-- C1: after every manage (register) / unmanage (unregister) operation in
any sequence, the registry's managed window-handle list and the most
recently published protocol client-list are equal (in particular they hold
the same set of handles). -/
theorem registry_client_list_consistent (ops : List WindowRegistry.Op) :
    (WindowRegistry.run ops).managed = (WindowRegistry.run ops).published := by
  induction ops using List.reverseRecOn with
  | nil => rfl
  | append_singleton ops op ih =>
      rw [WindowRegistry.run, List.foldl_append, List.foldl_cons, List.foldl_nil]
      exact WindowRegistry.consistent_applyOp ih op

namespace TilingSimple

/-
Embedding of src/layouts/tiling.py (TilingLayout.apply).  The function
takes only the window list; the screen is hard-coded to 800x600 and each
window receives height 600 // N at increasing y offsets.
-/

def screenWidth : Int := 800
def screenHeight : Int := 600

def go (heightPer : Int) (y : Int) : List Nat → List (Nat × Rect)
  | [] => []
  | w :: ws => (w, ⟨0, y, screenWidth, heightPer⟩) :: go heightPer (y + heightPer) ws

/-- `TilingLayout.apply`: each window is configured at x=0, width 800,
height 600 // total, stacked top to bottom. -/
def apply (windows : List Nat) : List (Nat × Rect) :=
  if windows.isEmpty then []
  else go (screenHeight / windows.length) 0 windows

/-- Sum of the heights of assigned rectangles. -/
def heightSum (out : List (Nat × Rect)) : Int :=
  (out.map (fun p => p.2.h)).sum

theorem go_length (hp y : Int) (ws : List Nat) : (go hp y ws).length = ws.length := by
  induction ws generalizing y with
  | nil => rfl
  | cons w ws ih => simp [go, ih]

theorem go_mem (hp y : Int) (ws : List Nat) :
    ∀ p ∈ go hp y ws, p.2.w = screenWidth ∧ p.2.h = hp := by
  induction ws generalizing y with
  | nil => simp [go]
  | cons w ws ih =>
      intro p hp'
      rcases (by simpa [go] using hp') with h | h
      · simp [h]
      · exact ih _ p h

theorem go_heightSum (hp y : Int) (ws : List Nat) :
    heightSum (go hp y ws) = ws.length * hp := by
  induction ws generalizing y with
  | nil => simp [go, heightSum]
  | cons w ws ih =>
      simp only [go, heightSum, List.map_cons, List.sum_cons] at *
      rw [ih (y + hp)]
      simp only [List.length_cons]
      push_cast
      ring

end TilingSimple

/-- C2, counterexample: applying the tiling-stack layout to 7 windows
yields 7 rectangles of height 600 // 7 = 85 each; the heights sum to 595,
not to the rectangle height 600, so no remainder pixels are added to the
first window. -/
theorem tiling_heights_counterexample :
    TilingSimple.heightSum (TilingSimple.apply [1, 2, 3, 4, 5, 6, 7]) = 595 ∧
    (595 : Int) ≠ 600 := by
  constructor
  · rfl
  · decide

/-- C2, amended: the tiling-stack layout ignores any target rectangle and
always tiles the fixed 800x600 region; on N >= 1 windows it yields N
rectangles, each of width 800 and height 600 // N, and the heights sum to
N * (600 // N) — which equals 600 only when N divides 600; no remainder is
added to the first window. -/
theorem tiling_stack_amended (windows : List Nat) (hne : windows ≠ []) :
    (TilingSimple.apply windows).length = windows.length ∧
    (∀ p ∈ TilingSimple.apply windows,
      p.2.w = 800 ∧ p.2.h = 600 / (windows.length : Int)) ∧
    TilingSimple.heightSum (TilingSimple.apply windows) =
      (windows.length : Int) * (600 / (windows.length : Int)) := by
  have hne' : ¬windows.isEmpty := by simpa [List.isEmpty_iff] using hne
  refine ⟨?_, ?_, ?_⟩
  · simp [TilingSimple.apply, hne', TilingSimple.go_length]
  · intro p hp
    have := TilingSimple.go_mem (600 / (windows.length : Int)) 0 windows p
      (by simpa [TilingSimple.apply, hne'] using hp)
    simpa [TilingSimple.screenWidth, TilingSimple.screenHeight] using this
  · simp [TilingSimple.apply, hne', TilingSimple.go_heightSum,
      TilingSimple.screenHeight]

/-- C2 witness: the amended statement evaluated on three windows: three
rectangles of width 800 and height 200, heights summing to 600. -/
theorem tiling_stack_amended_witness :
    (TilingSimple.apply [10, 20, 30]).length = 3 ∧
    TilingSimple.heightSum (TilingSimple.apply [10, 20, 30]) = 3 * (600 / 3) := by
  have h := tiling_stack_amended [10, 20, 30] (by decide)
  exact ⟨h.1, h.2.2⟩

namespace SimpleWorkspace

/-
Embedding of src/managers/workspace.py (class Workspace): an ordered
window list plus a focus index.  Python list indexing with a possibly
negative index is modelled by `pyGet`; `%` on a positive divisor is the
same in Python and in Lean's Int.
-/

structure WS where
  windows : List Nat
  focusIndex : Int
deriving Repr, DecidableEq

/-- Python `l[i]` including negative-index wraparound (out-of-range access
raises in Python; it is modelled as `none`). -/
def pyGet (l : List Nat) (i : Int) : Option Nat :=
  let j : Int := if i < 0 then i + l.length else i
  if 0 ≤ j then l[j.toNat]? else none

/-- `Workspace.add_window`: append and focus the new window. -/
def add_window (ws : WS) (w : Nat) : WS :=
  let l := ws.windows ++ [w]
  ⟨l, (l.length : Int) - 1⟩

/-- `Workspace.remove_window`: remove the window if present; clamp the
focus index only when it fell off the end of the shrunk list. -/
def remove_window (ws : WS) (w : Nat) : WS :=
  if w ∈ ws.windows then
    let l := ws.windows.erase w
    let fi := if ws.focusIndex ≥ (l.length : Int) then (l.length : Int) - 1
              else ws.focusIndex
    ⟨l, fi⟩
  else ws

/-- `Workspace.focus_next`: advance the focus index modulo the window
count (no-op on an empty workspace). -/
def focus_next (ws : WS) : WS :=
  if ws.windows.isEmpty then ws
  else { ws with focusIndex := (ws.focusIndex + 1) % (ws.windows.length : Int) }

/-- `Workspace.focus_prev`. -/
def focus_prev (ws : WS) : WS :=
  if ws.windows.isEmpty then ws
  else { ws with focusIndex := (ws.focusIndex - 1) % (ws.windows.length : Int) }

/-- `Workspace.get_focused_window`. -/
def get_focused_window (ws : WS) : Option Nat :=
  if ws.windows.isEmpty then none else pyGet ws.windows ws.focusIndex

theorem focus_next_iterate (ws : WS) (k : Nat)
    (h0 : 0 ≤ ws.focusIndex) (h1 : ws.focusIndex < (ws.windows.length : Int)) :
    (focus_next^[k] ws).windows = ws.windows ∧
    (focus_next^[k] ws).focusIndex = (ws.focusIndex + k) % (ws.windows.length : Int) := by
  have hlen : 0 < ws.windows.length := by exact_mod_cast h0.trans_lt h1
  have hne : ¬ws.windows.isEmpty = true := by
    simp only [List.isEmpty_iff]
    intro h
    rw [h] at hlen
    exact absurd hlen (by simp)
  induction k with
  | zero =>
      refine ⟨rfl, ?_⟩
      rw [Function.iterate_zero, id_eq, Nat.cast_zero, add_zero,
        Int.emod_eq_of_lt h0 h1]
  | succ k ih =>
      rcases ih with ⟨hw, hf⟩
      rw [Function.iterate_succ_apply']
      have hstep : focus_next (focus_next^[k] ws) =
          { windows := ws.windows,
            focusIndex := ((ws.focusIndex + k) % (ws.windows.length : Int) + 1) %
              (ws.windows.length : Int) } := by
        simp only [focus_next, hw, hf]
        rw [if_neg hne]
      rw [hstep]
      refine ⟨rfl, ?_⟩
      simp only [Int.emod_add_emod]
      congr 1
      push_cast
      ring

end SimpleWorkspace

/-- C6: for the workspace focus operations, an empty workspace has no
focused window and focus_next / focus_prev leave it unchanged (they are
total, never failing); and on a workspace of N >= 1 windows with a valid
focus index, N successive focus_next calls return focus to the window
focused at the start. -/
theorem focus_totality_and_cycle (ws : SimpleWorkspace.WS) :
    (ws.windows = [] →
      SimpleWorkspace.get_focused_window ws = none ∧
      SimpleWorkspace.focus_next ws = ws ∧
      SimpleWorkspace.focus_prev ws = ws) ∧
    (0 ≤ ws.focusIndex → ws.focusIndex < (ws.windows.length : Int) →
      SimpleWorkspace.get_focused_window
          (SimpleWorkspace.focus_next^[ws.windows.length] ws) =
        SimpleWorkspace.get_focused_window ws) := by
  constructor
  · intro hw
    refine ⟨?_, ?_, ?_⟩ <;>
      simp [SimpleWorkspace.get_focused_window, SimpleWorkspace.focus_next,
        SimpleWorkspace.focus_prev, hw]
  · intro h0 h1
    obtain ⟨hwin, hfoc⟩ := SimpleWorkspace.focus_next_iterate ws ws.windows.length h0 h1
    have hcyc : (ws.focusIndex + (ws.windows.length : Int)) % (ws.windows.length : Int) =
        ws.focusIndex := by
      have h2 := Int.add_mul_emod_self_left ws.focusIndex (ws.windows.length : Int) 1
      rw [mul_one] at h2
      rw [h2, Int.emod_eq_of_lt h0 h1]
    unfold SimpleWorkspace.get_focused_window
    rw [hwin, hfoc, hcyc]

/-- C6 witness: on the two-window workspace [5, 6] focused at index 0, two
focus_next calls return focus to window 5; the empty workspace has no
focused window. -/
theorem focus_totality_and_cycle_witness :
    SimpleWorkspace.get_focused_window
        (SimpleWorkspace.focus_next^[2] ⟨[5, 6], 0⟩) =
      SimpleWorkspace.get_focused_window ⟨[5, 6], 0⟩ ∧
    SimpleWorkspace.get_focused_window ⟨[], 0⟩ = none := by
  constructor
  · exact (focus_totality_and_cycle ⟨[5, 6], 0⟩).2 (by decide) (by decide)
  · exact ((focus_totality_and_cycle ⟨[], 0⟩).1 rfl).1

/-- C7, counterexample: in workspace [1, 2, 3] with window 2 focused
(index 1), removing the focused window 2 leaves focus on window 3 — the
NEXT neighbor (the index is kept) — not on the previous neighbor 1 as the
claim requires. -/
theorem remove_focused_counterexample :
    SimpleWorkspace.get_focused_window
        (SimpleWorkspace.remove_window ⟨[1, 2, 3], 1⟩ 2) = some 3 ∧
    (3 : Nat) ≠ 1 := by
  constructor
  · rfl
  · decide

/-- Python list access at index length - 1 is the last element. -/
theorem pyGet_last (l : List Nat) (hne : l ≠ []) :
    SimpleWorkspace.pyGet l ((l.length : Int) - 1) = l.getLast? := by
  have hlen : 1 ≤ l.length := List.length_pos.mpr hne
  simp only [SimpleWorkspace.pyGet]
  rw [if_neg (by omega : ¬((l.length : Int) - 1 < 0))]
  rw [if_pos (by omega : (0 : Int) ≤ (l.length : Int) - 1)]
  have ht : ((l.length : Int) - 1).toNat = l.length - 1 := by omega
  rw [ht, List.getLast?_eq_getElem?]

/-- Python list access just past a prefix reads the head of the suffix. -/
theorem pyGet_append_head (l1 : List Nat) (p : Nat) (ps : List Nat) :
    SimpleWorkspace.pyGet (l1 ++ p :: ps) (l1.length : Int) = some p := by
  simp only [SimpleWorkspace.pyGet]
  rw [if_neg (by omega : ¬((l1.length : Int) < 0))]
  rw [if_pos (by omega : (0 : Int) ≤ (l1.length : Int))]
  have ht : ((l1.length : Int)).toNat = l1.length := by omega
  rw [ht, List.getElem?_append_right (le_refl l1.length)]
  simp

/-- C7, amended: removing the focused window keeps the focus index, so
focus lands on the NEXT neighbor when one exists; only when the removed
window was last does the clamp move focus to the previous neighbor; and
removing the last remaining window leaves focus absent.  The workspace is
written as pre ++ w :: post with w focused. -/
theorem remove_focused_amended (pre post : List Nat) (w : Nat) (hw : w ∉ pre) :
    (SimpleWorkspace.remove_window ⟨pre ++ w :: post, (pre.length : Int)⟩ w).windows =
      pre ++ post ∧
    SimpleWorkspace.get_focused_window
        (SimpleWorkspace.remove_window ⟨pre ++ w :: post, (pre.length : Int)⟩ w) =
      (match post with
       | p :: _ => some p
       | [] => pre.getLast?) := by
  have hmem : w ∈ pre ++ w :: post := by simp
  have herase : (pre ++ w :: post).erase w = pre ++ post := by
    rw [List.erase_append_right _ hw, List.erase_cons_head]
  have hrw : SimpleWorkspace.remove_window ⟨pre ++ w :: post, (pre.length : Int)⟩ w =
      ⟨pre ++ post,
        if (pre.length : Int) ≥ ((pre ++ post).length : Int)
        then ((pre ++ post).length : Int) - 1 else (pre.length : Int)⟩ := by
    simp only [SimpleWorkspace.remove_window, herase]
    rw [if_pos hmem]
  rw [hrw]
  refine ⟨rfl, ?_⟩
  cases post with
  | nil =>
      rw [if_pos (by simp : ((pre.length : Int) ≥ ((pre ++ ([] : List Nat)).length : Int)))]
      simp only [List.append_nil]
      by_cases hpre : pre = []
      · subst hpre
        rfl
      · rw [SimpleWorkspace.get_focused_window,
          if_neg (by simp [List.isEmpty_iff, hpre])]
        exact pyGet_last pre hpre
  | cons p ps =>
      rw [if_neg (by simp : ¬((pre.length : Int) ≥ ((pre ++ p :: ps).length : Int)))]
      rw [SimpleWorkspace.get_focused_window, if_neg (by simp)]
      exact pyGet_append_head pre p ps

/-- C7 witness: the amended statement on workspace [1, 2, 3] with window 2
focused: removal leaves windows [1, 3] and focus on the next neighbor 3. -/
theorem remove_focused_amended_witness :
    (SimpleWorkspace.remove_window ⟨[1, 2, 3], 1⟩ 2).windows = [1, 3] ∧
    SimpleWorkspace.get_focused_window
        (SimpleWorkspace.remove_window ⟨[1, 2, 3], 1⟩ 2) = some 3 := by
  have h := remove_focused_amended [1] [3] 2 (by decide)
  simpa using h

namespace WorkspacesManager

/-
Embedding of mywm1.0/managers/workspaces.py (WorkspaceManager).  Windows
are identified by their X ids; a workspace is its ordered window-id list.
`dedupe` mirrors the seen-set loops of `_ewmh_update_client_list` and
`_visible_windows_for_monitor`.
-/

/-- The seen-set / unique-list deduplication loop used by the manager. -/
def dedupe (seen : List Nat) : List Nat → List Nat
  | [] => []
  | w :: ws => if w ∈ seen then dedupe seen ws else w :: dedupe (w :: seen) ws

/-- `_ewmh_update_client_list`: all workspace windows plus sticky windows,
deduplicated by id, is what gets published as the client list. -/
def clientList (workspaces : List (List Nat)) (sticky : List Nat) : List Nat :=
  dedupe [] (workspaces.flatten ++ sticky)

/-- `_visible_windows_for_monitor`: windows of the workspace active on the
monitor plus all sticky windows, deduplicated preserving order. -/
def visibleWindowsForMonitor (workspaces : List (List Nat)) (sticky : List Nat)
    (activeIdx : Nat) : List Nat :=
  dedupe [] (workspaces.getD activeIdx [] ++ sticky)

theorem dedupe_not_mem_seen (seen : List Nat) (l : List Nat) :
    ∀ a ∈ dedupe seen l, a ∉ seen := by
  induction l generalizing seen with
  | nil => simp [dedupe]
  | cons w ws ih =>
      intro a ha
      by_cases hmem : w ∈ seen
      · exact ih seen a (by simpa [dedupe, hmem] using ha)
      · rcases (by simpa [dedupe, hmem] using ha) with h | h
        · subst h; exact hmem
        · have := ih (w :: seen) a h
          intro hs
          exact this (List.mem_cons_of_mem _ hs)

theorem dedupe_nodup (seen : List Nat) (l : List Nat) : (dedupe seen l).Nodup := by
  induction l generalizing seen with
  | nil => simp [dedupe]
  | cons w ws ih =>
      by_cases hmem : w ∈ seen
      · simpa [dedupe, hmem] using ih seen
      · simp only [dedupe, hmem, if_false]
        refine List.nodup_cons.mpr ⟨?_, ih (w :: seen)⟩
        intro hcontra
        exact dedupe_not_mem_seen (w :: seen) ws w hcontra (List.mem_cons_self w seen)

end WorkspacesManager

/-- C10: whatever the workspace contents, sticky windows and active
workspace are — in particular after any operation sequence, and even when
a sticky window also sits in some workspace's window list — the published
client list and each monitor's visible-window list contain every window id
at most once. -/
theorem client_list_and_visible_no_duplicates
    (workspaces : List (List Nat)) (sticky : List Nat) (activeIdx : Nat) :
    (WorkspacesManager.clientList workspaces sticky).Nodup ∧
    (WorkspacesManager.visibleWindowsForMonitor workspaces sticky activeIdx).Nodup :=
  ⟨WorkspacesManager.dedupe_nodup [] _, WorkspacesManager.dedupe_nodup [] _⟩

namespace WorkspacesManager

/-
Autostart bookkeeping of mywm1.0/managers/workspaces.py: `_autostart_run`
maps (monitor_index, workspace name, command) to True once the command was
launched; `execLog` records every actual `subprocess.Popen` call, in
order, as its (monitor, workspace, command) key.
-/

structure WorkspaceDef where
  name : String
  autostart : List String
deriving Repr, DecidableEq

structure AState where
  active : List Nat
  ranKeys : List (Nat × String × String)
  execLog : List (Nat × String × String)
deriving Repr, DecidableEq

/-- One iteration of the `for cmd in ws.autostart` loop in
`_maybe_run_autostart_for_monitor`: skip if already marked, otherwise
launch (log) and mark. -/
def runCmd (mon : Nat) (name : String) (s : AState) (cmd : String) : AState :=
  let key := (mon, name, cmd)
  if key ∈ s.ranKeys then s
  else { s with ranKeys := key :: s.ranKeys, execLog := s.execLog ++ [key] }

/-- `WorkspaceManager._maybe_run_autostart_for_monitor`. -/
def maybeRunAutostartForMonitor (wss : List WorkspaceDef) (mon : Nat)
    (s : AState) : AState :=
  let wsIdx := s.active.getD mon 0
  match wss[wsIdx]? with
  | none => s
  | some ws => ws.autostart.foldl (runCmd mon ws.name) s

/-- `WorkspaceManager.switch_to` (the autostart-relevant part): invalid
monitor or workspace index is rejected, switching to the already-active
workspace is a no-op, otherwise the active index is updated and the
autostart check runs for that monitor. -/
def switchTo (wss : List WorkspaceDef) (monCount : Nat) (s : AState)
    (wsIdx mon : Nat) : AState :=
  if monCount ≤ mon then s
  else if wss.length ≤ wsIdx then s
  else if s.active.getD mon 0 = wsIdx then s
  else
    let s1 := { s with active := s.active.set mon wsIdx }
    maybeRunAutostartForMonitor wss mon s1

/-- Constructor behavior: every monitor starts on workspace 0 and
`autostart_on_start` runs the autostart check once per monitor. -/
def initState (wss : List WorkspaceDef) (monCount : Nat) : AState :=
  (List.range monCount).foldl
    (fun s mon => maybeRunAutostartForMonitor wss mon s)
    ⟨List.replicate monCount 0, [], []⟩

/-- Run a sequence of (workspace, monitor) switch requests from startup. -/
def runSwitches (wss : List WorkspaceDef) (monCount : Nat)
    (ops : List (Nat × Nat)) : AState :=
  ops.foldl (fun s op => switchTo wss monCount s op.1 op.2) (initState wss monCount)

/-- The inductive invariant: the launch log has no duplicate keys, and
every launched key is marked in `_autostart_run`. -/
def Inv (s : AState) : Prop :=
  s.execLog.Nodup ∧ ∀ k ∈ s.execLog, k ∈ s.ranKeys

theorem runCmd_inv {s : AState} (mon : Nat) (name : String) (cmd : String)
    (h : Inv s) : Inv (runCmd mon name s cmd) := by
  rcases h with ⟨hnd, hsub⟩
  by_cases hk : (mon, name, cmd) ∈ s.ranKeys
  · exact ⟨by simpa [runCmd, hk] using hnd, by simpa [runCmd, hk] using hsub⟩
  · constructor
    · simp only [runCmd, hk, if_false]
      rw [List.nodup_append]
      refine ⟨hnd, List.nodup_singleton _, ?_⟩
      intro a ha hb
      rcases (by simpa using hb) with rfl
      exact hk (hsub _ ha)
    · simp only [runCmd, hk, if_false]
      intro k hkmem
      rcases (by simpa using hkmem) with h | h
      · exact List.mem_cons_of_mem _ (hsub _ h)
      · subst h; exact List.mem_cons_self _ _

theorem foldl_runCmd_inv (mon : Nat) (name : String) (cmds : List String)
    {s : AState} (h : Inv s) : Inv (cmds.foldl (runCmd mon name) s) := by
  induction cmds generalizing s with
  | nil => exact h
  | cons c cs ih => exact ih (runCmd_inv mon name c h)

theorem maybeRun_inv (wss : List WorkspaceDef) (mon : Nat) {s : AState}
    (h : Inv s) : Inv (maybeRunAutostartForMonitor wss mon s) := by
  rw [maybeRunAutostartForMonitor]
  cases wss[s.active.getD mon 0]? with
  | none => exact h
  | some ws => exact foldl_runCmd_inv mon ws.name ws.autostart h

theorem switchTo_inv (wss : List WorkspaceDef) (monCount : Nat) {s : AState}
    (wsIdx mon : Nat) (h : Inv s) : Inv (switchTo wss monCount s wsIdx mon) := by
  rw [switchTo]
  split
  · exact h
  · split
    · exact h
    · split
      · exact h
      · exact maybeRun_inv wss mon h

theorem foldl_maybeRun_inv (wss : List WorkspaceDef) (mons : List Nat)
    {s : AState} (h : Inv s) :
    Inv (mons.foldl (fun s mon => maybeRunAutostartForMonitor wss mon s) s) := by
  induction mons generalizing s with
  | nil => exact h
  | cons m ms ih => exact ih (maybeRun_inv wss m h)

theorem initState_inv (wss : List WorkspaceDef) (monCount : Nat) :
    Inv (initState wss monCount) :=
  foldl_maybeRun_inv wss (List.range monCount) ⟨List.nodup_nil, by simp⟩

theorem runSwitches_inv (wss : List WorkspaceDef) (monCount : Nat)
    (ops : List (Nat × Nat)) : Inv (runSwitches wss monCount ops) := by
  rw [runSwitches]
  have h0 := initState_inv wss monCount
  generalize initState wss monCount = s0 at h0 ⊢
  induction ops generalizing s0 with
  | nil => exact h0
  | cons op ops ih => exact ih _ (switchTo_inv wss monCount op.1 op.2 h0)

end WorkspacesManager

/-- C9: over any sequence of workspace switches (after startup autostart),
every autostart command is launched at most once per
(monitor, workspace, command) tuple; in particular switching a monitor
away from a workspace and back does not launch its commands again. -/
theorem autostart_at_most_once (wss : List WorkspacesManager.WorkspaceDef)
    (monCount : Nat) (ops : List (Nat × Nat)) :
    (WorkspacesManager.runSwitches wss monCount ops).execLog.Nodup ∧
    Function.Injective (WorkspacesManager.runSwitches wss monCount ops).execLog.get := by
  have h := WorkspacesManager.runSwitches_inv wss monCount ops
  exact ⟨h.1, List.nodup_iff_injective_get.mp h.1⟩

namespace EWMH

/-
Embedding of mywm1.0/core/ewmh.py (EWMHManager) together with the
mywm1.0/main.py WMContext hooks.  Atoms are the interned integer ids the
manager caches in `self.atoms`; concrete distinct values stand for the
distinct atoms.  A window's protocol state is its _NET_WM_STATE property
(a list of atom ids) plus its rectangle; the display is the single-screen
branch of WMContext.on_window_state_added (no multimonitor manager).
-/

def atomNetWmState : Int := 1
def atomNetWmStateFullscreen : Int := 2
def atomNetWmStateMaximizedHorz : Int := 3
def atomNetWmStateMaximizedVert : Int := 4
def atomNetWmPing : Int := 5
def atomNetActiveWindow : Int := 6
def atomNetCloseWindow : Int := 7
def atomWmProtocols : Int := 8

structure WinState where
  states : List Int
  rect : Rect
deriving Repr, DecidableEq

/-- `WMContext.on_window_state_added` (main.py): on fullscreen the window
is configured to the full screen rectangle x=0, y=0, width, height; other
states change no geometry here. -/
def onWindowStateAdded (sw sh : Int) (st : WinState) (stateAtom : Int) : WinState :=
  if stateAtom = atomNetWmStateFullscreen then { st with rect := ⟨0, 0, sw, sh⟩ }
  else st

/-- `WMContext.on_window_state_removed`: restores decorations and the
status bar; it performs no geometry or state-list change. -/
def onWindowStateRemoved (st : WinState) (_stateAtom : Int) : WinState := st

/-- `EWMHManager.add_state_local`: append the atom to _NET_WM_STATE if
absent, then invoke the wm hook. -/
def addStateLocal (sw sh : Int) (st : WinState) (target : Int) : WinState :=
  let vals := if target ∈ st.states then st.states else st.states ++ [target]
  onWindowStateAdded sw sh { st with states := vals } target

/-- `EWMHManager.remove_state_local`: drop the atom if present, then
invoke the wm hook. -/
def removeStateLocal (st : WinState) (target : Int) : WinState :=
  let vals := if target ∈ st.states then st.states.erase target else st.states
  onWindowStateRemoved { st with states := vals } target

/-- `EWMHManager.toggle_state_local`: flip membership of the atom.  The
wm context defines no on_window_state_toggled hook, so only the property
changes. -/
def toggleStateLocal (st : WinState) (target : Int) : WinState :=
  if target ∈ st.states then { st with states := st.states.erase target }
  else { st with states := st.states ++ [target] }

/-- `EWMHManager.parse_net_wm_state_message`: a payload of fewer than
three words is rejected. -/
def parseNetWmStateMessage (d : List Int) : Option (Int × Int × Int) :=
  match d with
  | a :: b :: c :: _ => some (a, b, c)
  | _ => none

structure ClientMessage where
  ctype : Int
  data32 : List Int
deriving Repr, DecidableEq

/-- `EWMHManager.handle_client_message` restricted to its effect on the
target window's protocol state and rectangle.  The ping, active-window and
close branches only emit outbound messages or root properties and leave
the window state unchanged. -/
def handleClientMessage (sw sh : Int) (st : WinState) (ev : ClientMessage) :
    WinState :=
  if ev.ctype = atomNetWmState then
    match parseNetWmStateMessage ev.data32 with
    | none => st
    | some (action, a1, a2) =>
      let st1 :=
        if a1 = atomNetWmStateFullscreen ∨ a2 = atomNetWmStateFullscreen then
          if action = 1 then addStateLocal sw sh st atomNetWmStateFullscreen
          else if action = 0 then removeStateLocal st atomNetWmStateFullscreen
          else if action = 2 then toggleStateLocal st atomNetWmStateFullscreen
          else st
        else st
      if a1 = atomNetWmStateMaximizedHorz ∨ a2 = atomNetWmStateMaximizedHorz ∨
          a1 = atomNetWmStateMaximizedVert ∨ a2 = atomNetWmStateMaximizedVert then
        if action = 1 then
          addStateLocal sw sh
            (addStateLocal sw sh st1 atomNetWmStateMaximizedHorz)
            atomNetWmStateMaximizedVert
        else if action = 0 then
          removeStateLocal (removeStateLocal st1 atomNetWmStateMaximizedHorz)
            atomNetWmStateMaximizedVert
        else if action = 2 then
          toggleStateLocal (toggleStateLocal st1 atomNetWmStateMaximizedHorz)
            atomNetWmStateMaximizedVert
        else st1
      else st1
  else if ev.ctype = atomNetWmPing then st
  else if ev.ctype = atomNetActiveWindow then st
  else if ev.ctype = atomNetCloseWindow ∨ ev.ctype = atomWmProtocols then st
  else st

end EWMH

/-- C3: for any current window state, handling a _NET_WM_STATE client
message with action 1 (add) and the fullscreen atom on a 1920x1080 screen
leaves the fullscreen atom in the window's protocol state flags and sets
the window rectangle to exactly (0, 0, 1920, 1080). -/
theorem fullscreen_add_message (st : EWMH.WinState) :
    EWMH.atomNetWmStateFullscreen ∈
      (EWMH.handleClientMessage 1920 1080 st
        ⟨EWMH.atomNetWmState, [1, EWMH.atomNetWmStateFullscreen, 0, 0, 0]⟩).states ∧
    (EWMH.handleClientMessage 1920 1080 st
        ⟨EWMH.atomNetWmState, [1, EWMH.atomNetWmStateFullscreen, 0, 0, 0]⟩).rect =
      ⟨0, 0, 1920, 1080⟩ := by
  have hmax : ¬((1 : Int) = EWMH.atomNetWmStateMaximizedHorz ∨
      (0 : Int) = EWMH.atomNetWmStateMaximizedHorz ∨
      (1 : Int) = EWMH.atomNetWmStateMaximizedVert ∨
      (0 : Int) = EWMH.atomNetWmStateMaximizedVert) := by decide
  simp only [EWMH.handleClientMessage, EWMH.parseNetWmStateMessage,
    EWMH.addStateLocal, EWMH.onWindowStateAdded, EWMH.atomNetWmState,
    EWMH.atomNetWmStateFullscreen, EWMH.atomNetWmStateMaximizedHorz,
    EWMH.atomNetWmStateMaximizedVert]
  norm_num
  by_cases hmem : (2 : Int) ∈ st.states <;> simp [hmem]

namespace FloatingM

/-
Embedding of mywm1.0/managers/floating.py (FloatingManager._snap): given
the root/screen geometry (sx, sy, sw, sh), the snap threshold t and a
window geometry, each axis is snapped to the near edge when within the
threshold; the far-edge (right/bottom) checks use the window's original
position and overwrite the near-edge snap when they also trigger.
-/

def snap (t sx sy sw sh x y w h : Int) : Int × Int :=
  let nx1 := if pyAbs (x - sx) ≤ t then sx else x
  let ny1 := if pyAbs (y - sy) ≤ t then sy else y
  let nx2 := if sw ≠ 0 ∧ pyAbs ((x + w) - (sx + sw)) ≤ t then sx + sw - w else nx1
  let ny2 := if sh ≠ 0 ∧ pyAbs ((y + h) - (sy + sh)) ≤ t then sy + sh - h else ny1
  (nx2, ny2)

end FloatingM

/-- C8, counterexample: on a 410-wide monitor at origin 0 with threshold
16, a 400-wide window at x=5 has its left edge within the threshold, yet
snap moves it to x=10 (the right-edge snap overwrites the left-edge snap),
so the left edge does NOT end exactly at the monitor edge 0. -/
theorem snap_left_edge_counterexample :
    FloatingM.snap 16 0 0 410 1080 5 500 400 300 = (10, 500) ∧
    pyAbs (5 - 0) ≤ 16 ∧ (10 : Int) ≠ 0 := by decide

/-- C8, amended: an edge within the snap threshold is set exactly equal to
the monitor edge, provided the opposite edge of the same axis does not
also lie within the threshold (in that conflict the right/bottom snap
wins, aligning that edge exactly instead); right/bottom snaps require a
nonzero screen extent.  In particular a 400-wide window at x=10 with
monitor origin 0 and threshold 16 ends at exactly x=0. -/
theorem snap_edges_amended (t sx sy sw sh x y w h : Int) :
    (pyAbs (x - sx) ≤ t → ¬(sw ≠ 0 ∧ pyAbs ((x + w) - (sx + sw)) ≤ t) →
      (FloatingM.snap t sx sy sw sh x y w h).1 = sx) ∧
    (sw ≠ 0 → pyAbs ((x + w) - (sx + sw)) ≤ t →
      (FloatingM.snap t sx sy sw sh x y w h).1 + w = sx + sw) ∧
    (pyAbs (y - sy) ≤ t → ¬(sh ≠ 0 ∧ pyAbs ((y + h) - (sy + sh)) ≤ t) →
      (FloatingM.snap t sx sy sw sh x y w h).2 = sy) ∧
    (sh ≠ 0 → pyAbs ((y + h) - (sy + sh)) ≤ t →
      (FloatingM.snap t sx sy sw sh x y w h).2 + h = sy + sh) := by
  refine ⟨?_, ?_, ?_, ?_⟩ <;>
    · simp only [FloatingM.snap, pyAbs_le]
      intros
      split_ifs <;> first | rfl | omega

/-- C8 witness: the spec's concrete instance through the amended theorem:
window of width 400 at x=10, monitor origin 0, width 1920, threshold 16 —
the snapped x is exactly 0. -/
theorem snap_edges_amended_witness :
    (FloatingM.snap 16 0 0 1920 1080 10 300 400 300).1 = 0 :=
  (snap_edges_amended 16 0 0 1920 1080 10 300 400 300).1 (by decide) (by decide)

namespace BSPLayout

/-
Embedding of mywm1.0/core/layouts.py (BSP.apply / split_area): recursive
bisection alternating the split axis; the first half of the window list
gets `w // 2` (resp. `h // 2`) and the second half the rest, so the
integer-division remainder lands in the SECOND partition.
-/

def bspSplit : List Nat → Int → Int → Int → Int → Bool → List (Nat × Rect)
  | [], _, _, _, _, _ => []
  | [a], x, y, w, h, _ => [(a, ⟨x, y, w, h⟩)]
  | a :: b :: rest, x, y, w, h, vertical =>
    let ws := a :: b :: rest
    let mid := ws.length / 2
    if vertical then
      bspSplit (ws.take mid) x y (w / 2) h (!vertical) ++
      bspSplit (ws.drop mid) (x + w / 2) y (w - w / 2) h (!vertical)
    else
      bspSplit (ws.take mid) x y w (h / 2) (!vertical) ++
      bspSplit (ws.drop mid) x (y + h / 2) w (h - h / 2) (!vertical)
termination_by ws => ws.length
decreasing_by
  all_goals simp [List.length_take, List.length_drop]
  all_goals omega

/-- `BSP.apply`: split the screen rectangle starting with a vertical
split. -/
def apply (windows : List Nat) (screen : Rect) : List (Nat × Rect) :=
  bspSplit windows screen.x screen.y screen.w screen.h true

/-- Integer-point membership in a rectangle. -/
def memRect (px py : Int) (r : Rect) : Prop :=
  r.x ≤ px ∧ px < r.x + r.w ∧ r.y ≤ py ∧ py < r.y + r.h

instance (px py : Int) (r : Rect) : Decidable (memRect px py r) := by
  unfold memRect; infer_instance

/-- Two rectangles share no integer point. -/
def disjointRects (r1 r2 : Rect) : Prop :=
  ∀ px py : Int, ¬(memRect px py r1 ∧ memRect px py r2)

theorem bsp_props : ∀ n (windows : List Nat), windows.length ≤ n → windows ≠ [] →
    ∀ x y w h : Int, ∀ vert : Bool, 0 ≤ w → 0 ≤ h →
    (bspSplit windows x y w h vert).length = windows.length ∧
    (∀ px py : Int, memRect px py ⟨x, y, w, h⟩ ↔
      ∃ pr ∈ bspSplit windows x y w h vert, memRect px py pr.2) ∧
    (bspSplit windows x y w h vert).Pairwise (fun p q => disjointRects p.2 q.2) := by
  intro n
  induction n with
  | zero =>
      intro ws hlen hne
      exact absurd (List.length_eq_zero.mp (Nat.le_zero.mp hlen)) hne
  | succ n ih =>
      intro ws hlen hne x y w h vert hw hh
      match ws with
      | [a] =>
          refine ⟨by simp [bspSplit], ?_, ?_⟩
          · intro px py
            simp [bspSplit, memRect]
          · simp [bspSplit]
      | a :: b :: rest =>
          have hlen2 : 2 ≤ (a :: b :: rest).length := by simp
          set L := a :: b :: rest with hL
          have hmid1 : 1 ≤ L.length / 2 := by omega
          have hmidlt : L.length / 2 < L.length := by omega
          have htake_len : (L.take (L.length / 2)).length = L.length / 2 := by
            simp [List.length_take]; omega
          have hdrop_len : (L.drop (L.length / 2)).length = L.length - L.length / 2 := by
            simp [List.length_drop]
          have htake_ne : L.take (L.length / 2) ≠ [] := by
            intro hc; rw [hc] at htake_len; simp at htake_len; omega
          have hdrop_ne : L.drop (L.length / 2) ≠ [] := by
            intro hc; rw [hc] at hdrop_len; simp at hdrop_len; omega
          have htake_le : (L.take (L.length / 2)).length ≤ n := by omega
          have hdrop_le : (L.drop (L.length / 2)).length ≤ n := by omega
          cases vert with
          | true =>
              have hw1 : 0 ≤ w / 2 := by omega
              have hw2 : w / 2 ≤ w := by omega
              obtain ⟨ihl1, ihl2, ihl3⟩ := ih (L.take (L.length / 2)) htake_le htake_ne
                x y (w / 2) h false hw1 hh
              obtain ⟨ihr1, ihr2, ihr3⟩ := ih (L.drop (L.length / 2)) hdrop_le hdrop_ne
                (x + w / 2) y (w - w / 2) h false (by omega) hh
              have heq : bspSplit L x y w h true =
                  bspSplit (L.take (L.length / 2)) x y (w / 2) h false ++
                  bspSplit (L.drop (L.length / 2)) (x + w / 2) y (w - w / 2) h false := by
                rw [hL]
                simp only [bspSplit]
                rfl
              rw [heq]
              refine ⟨?_, ?_, ?_⟩
              · rw [List.length_append, ihl1, ihr1, htake_len, hdrop_len]
                omega
              · intro px py
                have hsplit : memRect px py ⟨x, y, w, h⟩ ↔
                    memRect px py ⟨x, y, w / 2, h⟩ ∨
                    memRect px py ⟨x + w / 2, y, w - w / 2, h⟩ := by
                  simp only [memRect]
                  omega
                rw [hsplit, ihl2 px py, ihr2 px py]
                constructor
                · rintro (⟨pr, hmem, hpr⟩ | ⟨pr, hmem, hpr⟩)
                  · exact ⟨pr, List.mem_append_left _ hmem, hpr⟩
                  · exact ⟨pr, List.mem_append_right _ hmem, hpr⟩
                · rintro ⟨pr, hmem, hpr⟩
                  rcases List.mem_append.mp hmem with hm | hm
                  · exact Or.inl ⟨pr, hm, hpr⟩
                  · exact Or.inr ⟨pr, hm, hpr⟩
              · rw [List.pairwise_append]
                refine ⟨ihl3, ihr3, ?_⟩
                intro p hp q hq px py hcontra
                rcases hcontra with ⟨hp2, hq2⟩
                have h1 : memRect px py ⟨x, y, w / 2, h⟩ :=
                  (ihl2 px py).mpr ⟨p, hp, hp2⟩
                have h2 : memRect px py ⟨x + w / 2, y, w - w / 2, h⟩ :=
                  (ihr2 px py).mpr ⟨q, hq, hq2⟩
                simp only [memRect] at h1 h2
                omega
          | false =>
              have hh1 : 0 ≤ h / 2 := by omega
              obtain ⟨ihl1, ihl2, ihl3⟩ := ih (L.take (L.length / 2)) htake_le htake_ne
                x y w (h / 2) true hw hh1
              obtain ⟨ihr1, ihr2, ihr3⟩ := ih (L.drop (L.length / 2)) hdrop_le hdrop_ne
                x (y + h / 2) w (h - h / 2) true hw (by omega)
              have heq : bspSplit L x y w h false =
                  bspSplit (L.take (L.length / 2)) x y w (h / 2) true ++
                  bspSplit (L.drop (L.length / 2)) x (y + h / 2) w (h - h / 2) true := by
                rw [hL]
                simp only [bspSplit]
                rfl
              rw [heq]
              refine ⟨?_, ?_, ?_⟩
              · rw [List.length_append, ihl1, ihr1, htake_len, hdrop_len]
                omega
              · intro px py
                have hsplit : memRect px py ⟨x, y, w, h⟩ ↔
                    memRect px py ⟨x, y, w, h / 2⟩ ∨
                    memRect px py ⟨x, y + h / 2, w, h - h / 2⟩ := by
                  simp only [memRect]
                  omega
                rw [hsplit, ihl2 px py, ihr2 px py]
                constructor
                · rintro (⟨pr, hmem, hpr⟩ | ⟨pr, hmem, hpr⟩)
                  · exact ⟨pr, List.mem_append_left _ hmem, hpr⟩
                  · exact ⟨pr, List.mem_append_right _ hmem, hpr⟩
                · rintro ⟨pr, hmem, hpr⟩
                  rcases List.mem_append.mp hmem with hm | hm
                  · exact Or.inl ⟨pr, hm, hpr⟩
                  · exact Or.inr ⟨pr, hm, hpr⟩
              · rw [List.pairwise_append]
                refine ⟨ihl3, ihr3, ?_⟩
                intro p hp q hq px py hcontra
                rcases hcontra with ⟨hp2, hq2⟩
                have h1 : memRect px py ⟨x, y, w, h / 2⟩ :=
                  (ihl2 px py).mpr ⟨p, hp, hp2⟩
                have h2 : memRect px py ⟨x, y + h / 2, w, h - h / 2⟩ :=
                  (ihr2 px py).mpr ⟨q, hq, hq2⟩
                simp only [memRect] at h1 h2
                omega

end BSPLayout

/-- C5, counterexample: bsp on two windows over the 5-wide rectangle
(0,0,5,5) gives the FIRST partition width 5 // 2 = 2 and the second
partition width 3; the remainder pixel goes to the second partition, not
to the first as the claim states (remainder-to-first would give the first
window width 5 - 5 // 2 = 3). -/
theorem bsp_remainder_counterexample :
    BSPLayout.apply [1, 2] ⟨0, 0, 5, 5⟩ =
      [(1, ⟨0, 0, 2, 5⟩), (2, ⟨2, 0, 3, 5⟩)] ∧
    (2 : Int) ≠ 5 - 5 / 2 := by
  constructor
  · simp [BSPLayout.apply, BSPLayout.bspSplit]
  · decide

/-- C5, amended: bsp on N >= 1 windows over a rectangle R of nonnegative
extent assigns exactly N leaf rectangles that pairwise share no integer
point and whose union is exactly R (an integer point lies in R iff it lies
in some leaf) — with the integer-rounding remainder at each split given to
the SECOND partition (the first gets the floored half). -/
theorem bsp_tiling_amended (windows : List Nat) (screen : Rect)
    (hne : windows ≠ []) (hw : 0 ≤ screen.w) (hh : 0 ≤ screen.h) :
    (BSPLayout.apply windows screen).length = windows.length ∧
    (∀ px py : Int, BSPLayout.memRect px py screen ↔
      ∃ pr ∈ BSPLayout.apply windows screen, BSPLayout.memRect px py pr.2) ∧
    (BSPLayout.apply windows screen).Pairwise
      (fun p q => BSPLayout.disjointRects p.2 q.2) :=
  BSPLayout.bsp_props windows.length windows (le_refl _) hne
    screen.x screen.y screen.w screen.h true hw hh

/-- C5 witness: three windows over (0,0,5,5): three leaves, and the point
(3,4) of the screen lies in one of them. -/
theorem bsp_tiling_amended_witness :
    (BSPLayout.apply [1, 2, 3] ⟨0, 0, 5, 5⟩).length = 3 ∧
    (∃ pr ∈ BSPLayout.apply [1, 2, 3] ⟨0, 0, 5, 5⟩, BSPLayout.memRect 3 4 pr.2) := by
  have h := bsp_tiling_amended [1, 2, 3] ⟨0, 0, 5, 5⟩ (by decide) (by decide) (by decide)
  exact ⟨h.1, (h.2.1 3 4).mp (by decide)⟩

namespace Layouts

/-
Embedding of mywm1.0/core/layouts.py: the remaining layout strategies and
the LayoutManager dispatcher.  A layout's output is the ordered list of
configure calls (window id, rectangle) it issues; map/unmap calls carry no
geometry and are omitted.  The Floating strategy's `positions` dict is an
association list with replace-on-insert semantics; its `_snap_to_edges`
mutates the stored geometry in place, which `floatingStep` models by
re-inserting the snapped rectangle.
-/

abbrev PosMap := List (Nat × Rect)

def lookupPos : PosMap → Nat → Option Rect
  | [], _ => none
  | (k, v) :: ps, key => if k = key then some v else lookupPos ps key

def insertPos : PosMap → Nat → Rect → PosMap
  | [], key, v => [(key, v)]
  | (k, w) :: ps, key, v =>
    if k = key then (k, v) :: ps else (k, w) :: insertPos ps key v

def minW : Int := 50
def minH : Int := 30

/-- `Floating.snap_threshold`, set to 20 in `Floating.__init__`. -/
def snapThreshold : Int := 20

/-- One axis of `Floating._snap_to_edges`: the near-edge snap runs first
and the far-edge check then uses the updated position. -/
def snapAxis (t p len s slen : Int) : Int :=
  let p1 := if pyAbs (p - s) < t then s else p
  if pyAbs ((p1 + len) - (s + slen)) < t then s + slen - len else p1

def snapToEdges (g : Rect) (s : Rect) : Rect :=
  ⟨snapAxis snapThreshold g.x g.w s.x s.w,
   snapAxis snapThreshold g.y g.h s.y s.h, g.w, g.h⟩

/-- The default position inserted by `Floating.apply` for an unknown
window id. -/
def defaultPos (s : Rect) : Rect :=
  ⟨s.x + 50, s.y + 50, max minW (s.w / 2), max minH (s.h / 2)⟩

/-- One iteration of the `Floating.apply` loop for a single window. -/
def floatingStep (s : Rect) (ps : PosMap) (w : Nat) : PosMap × (Nat × Rect) :=
  let ps1 := if lookupPos ps w = none then insertPos ps w (defaultPos s) else ps
  let g := (lookupPos ps1 w).getD (defaultPos s)
  let g2 := snapToEdges g s
  (insertPos ps1 w g2, (w, g2))

/-- `Floating.apply`: thread the positions dict through the loop and
collect the configure calls. -/
def floatingApply (ps : PosMap) (s : Rect) : List Nat → PosMap × List (Nat × Rect)
  | [] => (ps, [])
  | w :: ws =>
    let r1 := floatingStep s ps w
    let r2 := floatingApply r1.1 s ws
    (r2.1, r1.2 :: r2.2)

theorem snapAxis_idem (t p len s slen : Int) :
    snapAxis t (snapAxis t p len s slen) len s slen = snapAxis t p len s slen := by
  simp only [snapAxis, pyAbs_lt]
  split_ifs <;> omega

theorem snapToEdges_idem (g s : Rect) :
    snapToEdges (snapToEdges g s) s = snapToEdges g s := by
  simp only [snapToEdges, snapAxis_idem]

theorem lookup_insert_self (ps : PosMap) (k : Nat) (v : Rect) :
    lookupPos (insertPos ps k v) k = some v := by
  induction ps with
  | nil => simp [insertPos, lookupPos]
  | cons p ps ih =>
      rcases p with ⟨pk, pv⟩
      by_cases hk : pk = k
      · simp [insertPos, lookupPos, hk]
      · simp [insertPos, lookupPos, hk, ih]

theorem lookup_insert_ne (ps : PosMap) (k k' : Nat) (v : Rect) (h : k ≠ k') :
    lookupPos (insertPos ps k v) k' = lookupPos ps k' := by
  induction ps with
  | nil => simp [insertPos, lookupPos, h]
  | cons p ps ih =>
      rcases p with ⟨pk, pv⟩
      by_cases hk : pk = k
      · subst hk
        simp [insertPos, lookupPos, h]
      · simp [insertPos, lookupPos, hk, ih]

/-- Two position dicts that answer every lookup identically. -/
def EqMap (ps ps' : PosMap) : Prop := ∀ k, lookupPos ps k = lookupPos ps' k

theorem insert_eqmap {ps ps' : PosMap} (h : EqMap ps ps') (k : Nat) (v : Rect) :
    EqMap (insertPos ps k v) (insertPos ps' k v) := by
  intro k'
  by_cases hk : k = k'
  · subst hk
    rw [lookup_insert_self, lookup_insert_self]
  · rw [lookup_insert_ne _ _ _ _ hk, lookup_insert_ne _ _ _ _ hk]
    exact h k'

theorem insert_same_eqmap {ps : PosMap} {k : Nat} {v : Rect}
    (h : lookupPos ps k = some v) : EqMap (insertPos ps k v) ps := by
  intro k'
  by_cases hk : k = k'
  · subst hk
    rw [lookup_insert_self, h]
  · rw [lookup_insert_ne _ _ _ _ hk]

theorem floatingStep_known (s : Rect) (ps : PosMap) (w : Nat) (v : Rect)
    (hl : lookupPos ps w = some v) (hsnap : snapToEdges v s = v) :
    floatingStep s ps w = (insertPos ps w v, (w, v)) := by
  have hnn : ¬(lookupPos ps w = none) := by rw [hl]; simp
  simp only [floatingStep]
  rw [if_neg hnn, hl, Option.getD_some, hsnap]

theorem floatingApply_lookup_stable (s : Rect) (ws : List Nat) :
    ∀ ps (w : Nat) (v : Rect), lookupPos ps w = some v → snapToEdges v s = v →
    lookupPos (floatingApply ps s ws).1 w = some v := by
  induction ws with
  | nil => intro ps w v hl _; exact hl
  | cons w' ws ih =>
      intro ps w v hl hsnap
      simp only [floatingApply]
      by_cases hk : w' = w
      · subst hk
        rw [floatingStep_known s ps w' v hl hsnap]
        exact ih _ w' v (lookup_insert_self ps w' v) hsnap
      · have hlook : lookupPos (floatingStep s ps w').1 w = some v := by
          simp only [floatingStep]
          by_cases hm : lookupPos ps w' = none
          · rw [if_pos hm, lookup_insert_ne _ _ _ _ hk, lookup_insert_ne _ _ _ _ hk, hl]
          · rw [if_neg hm, lookup_insert_ne _ _ _ _ hk, hl]
        exact ih _ w v hlook hsnap

theorem floatingStep_eqmap {ps ps' : PosMap} (h : EqMap ps ps') (s : Rect) (w : Nat) :
    (floatingStep s ps w).2 = (floatingStep s ps' w).2 ∧
    EqMap (floatingStep s ps w).1 (floatingStep s ps' w).1 := by
  by_cases hm : lookupPos ps' w = none
  · have hm1 : lookupPos ps w = none := (h w).trans hm
    have he : EqMap (insertPos ps w (defaultPos s)) (insertPos ps' w (defaultPos s)) :=
      insert_eqmap h w _
    simp only [floatingStep]
    rw [if_pos hm1, if_pos hm, lookup_insert_self, lookup_insert_self]
    exact ⟨rfl, insert_eqmap he w _⟩
  · have hm1 : ¬(lookupPos ps w = none) := by rw [h w]; exact hm
    simp only [floatingStep]
    rw [if_neg hm1, if_neg hm, h w]
    exact ⟨rfl, insert_eqmap h w _⟩

theorem floatingApply_eqmap (s : Rect) (ws : List Nat) :
    ∀ {ps ps' : PosMap}, EqMap ps ps' →
    (floatingApply ps s ws).2 = (floatingApply ps' s ws).2 ∧
    EqMap (floatingApply ps s ws).1 (floatingApply ps' s ws).1 := by
  induction ws with
  | nil => intro ps ps' h; exact ⟨rfl, h⟩
  | cons w ws ih =>
      intro ps ps' h
      obtain ⟨hout, hst⟩ := floatingStep_eqmap h s w
      obtain ⟨hout2, hst2⟩ := ih hst
      simp only [floatingApply]
      exact ⟨by rw [hout, hout2], hst2⟩

theorem floatingApply_cons (ps : PosMap) (s : Rect) (w : Nat) (ws : List Nat) :
    floatingApply ps s (w :: ws) =
      ((floatingApply (floatingStep s ps w).1 s ws).1,
       (floatingStep s ps w).2 :: (floatingApply (floatingStep s ps w).1 s ws).2) := rfl

theorem floatingStep_snap_fixed (s : Rect) (ps : PosMap) (w : Nat) :
    snapToEdges (floatingStep s ps w).2.2 s = (floatingStep s ps w).2.2 := by
  simp only [floatingStep]
  exact snapToEdges_idem _ _

theorem floatingStep_state_lookup (s : Rect) (ps : PosMap) (w : Nat) :
    lookupPos (floatingStep s ps w).1 w = some (floatingStep s ps w).2.2 := by
  simp only [floatingStep]
  exact lookup_insert_self _ _ _

theorem floatingApply_idem (s : Rect) (ws : List Nat) :
    ∀ ps : PosMap,
    (floatingApply (floatingApply ps s ws).1 s ws).2 = (floatingApply ps s ws).2 := by
  induction ws with
  | nil => intro ps; rfl
  | cons w ws ih =>
      intro ps
      have hA2 := floatingStep_snap_fixed s ps w
      have hAl := floatingStep_state_lookup s ps w
      have hstable : lookupPos (floatingApply (floatingStep s ps w).1 s ws).1 w =
          some (floatingStep s ps w).2.2 :=
        floatingApply_lookup_stable s ws _ w _ hAl hA2
      have hstep2 : floatingStep s (floatingApply (floatingStep s ps w).1 s ws).1 w =
          (insertPos (floatingApply (floatingStep s ps w).1 s ws).1 w
            (floatingStep s ps w).2.2,
           (w, (floatingStep s ps w).2.2)) :=
        floatingStep_known s _ w _ hstable hA2
      have heqmap : EqMap
          (insertPos (floatingApply (floatingStep s ps w).1 s ws).1 w
            (floatingStep s ps w).2.2)
          (floatingApply (floatingStep s ps w).1 s ws).1 :=
        insert_same_eqmap hstable
      rw [floatingApply_cons ps s w ws]
      rw [floatingApply_cons]
      dsimp only
      rw [hstep2]
      dsimp only
      congr 1
      rw [(floatingApply_eqmap s ws heqmap).1]
      exact ih _

/-- `Monocle.apply`: only the first window is configured, to the full
screen rectangle; the others are unmapped. -/
def monocleApply (windows : List Nat) (s : Rect) : List (Nat × Rect) :=
  match windows with
  | [] => []
  | w :: _ => [(w, ⟨s.x, s.y, s.w, s.h⟩)]

/-- `Fullscreen.apply`: first window gets the full rectangle, rest are
unmapped. -/
def fullscreenApply (windows : List Nat) (s : Rect) : List (Nat × Rect) :=
  match windows with
  | [] => []
  | w :: _ => [(w, ⟨s.x, s.y, s.w, s.h⟩)]

/-- `Grid.apply`.  Python computes `int(n ** 0.5)`; for the realistic
window counts this is the integer square root. -/
def gridApply (windows : List Nat) (s : Rect) : List (Nat × Rect) :=
  match windows with
  | [] => []
  | _ =>
    let n := windows.length
    let cols0 := Nat.sqrt n
    let cols := if cols0 * cols0 < n then cols0 + 1 else cols0
    let rows := (n + cols - 1) / cols
    let cellW := max 1 (s.w / (cols : Int))
    let cellH := max 1 (s.h / (rows : Int))
    windows.enum.map (fun p =>
      (p.2, ⟨s.x + ((p.1 % cols : Nat) : Int) * cellW,
             s.y + ((p.1 / cols : Nat) : Int) * cellH, cellW, cellH⟩))

/-- `Tabbed.apply`: only the window at the current tab index is
configured (20 pixels reserved for the tab bar); the rest are unmapped. -/
def tabbedApply (cur : Nat) (windows : List Nat) (s : Rect) : List (Nat × Rect) :=
  windows.enum.filterMap (fun p =>
    if p.1 = cur then some (p.2, ⟨s.x, s.y + 20, s.w, s.h - 20⟩) else none)

/-- `Stacking.apply`: only the window at the current stack index is
configured, to the full rectangle. -/
def stackingApply (cur : Nat) (windows : List Nat) (s : Rect) : List (Nat × Rect) :=
  windows.enum.filterMap (fun p =>
    if p.1 = cur then some (p.2, ⟨s.x, s.y, s.w, s.h⟩) else none)

/-- The LayoutManager's mutable state: the index into
[Monocle, Fullscreen, Floating, BSP, Grid, Tabbed, Stacking] plus the
auxiliary state of the stateful strategies. -/
structure LMState where
  current : Nat
  floatingPos : PosMap
  tabbedTab : Nat
  stackingCur : Nat
deriving Repr, DecidableEq

/-- `LayoutManager.apply`: empty window list is a no-op; otherwise the
strategy selected by `current` runs (an out-of-range index raises and is
swallowed, applying nothing).  Only Floating.apply updates layout state. -/
def lmApply (st : LMState) (windows : List Nat) (screen : Rect) :
    LMState × List (Nat × Rect) :=
  if windows.isEmpty then (st, [])
  else
    match st.current with
    | 0 => (st, monocleApply windows screen)
    | 1 => (st, fullscreenApply windows screen)
    | 2 =>
      let r := floatingApply st.floatingPos screen windows
      ({ st with floatingPos := r.1 }, r.2)
    | 3 => (st, BSPLayout.apply windows screen)
    | 4 => (st, gridApply windows screen)
    | 5 => (st, tabbedApply st.tabbedTab windows screen)
    | 6 => (st, stackingApply st.stackingCur windows screen)
    | _ => (st, [])

end Layouts

/-- C4: applying the layout manager twice with the same window list and
rectangle emits exactly the same configure calls both times, for every
strategy — including the stateful floating layout whose remembered
per-window positions are snapped in place (snapping is idempotent, so the
second pass reproduces the first). -/
theorem layout_apply_idempotent (st : Layouts.LMState) (windows : List Nat)
    (screen : Rect) :
    (Layouts.lmApply (Layouts.lmApply st windows screen).1 windows screen).2 =
    (Layouts.lmApply st windows screen).2 := by
  by_cases hne : windows.isEmpty
  · simp [Layouts.lmApply, hne]
  · rcases st with ⟨cur, fp, tt, sc⟩
    rcases cur with _ | _ | _ | _ | _ | _ | _ | cur
    · simp [Layouts.lmApply, hne]
    · simp [Layouts.lmApply, hne]
    · simp only [Layouts.lmApply, hne, Bool.false_eq_true, if_false]
      exact Layouts.floatingApply_idem screen windows fp
    · simp [Layouts.lmApply, hne]
    · simp [Layouts.lmApply, hne]
    · simp [Layouts.lmApply, hne]
    · simp [Layouts.lmApply, hne]
    · simp [Layouts.lmApply, hne]
